import Mathlib

/-!
Verification of the Sudoku validator/filler (src/sudoku.c).

The grid is modelled as a function from 1-based (row, column) coordinates to
C `int` values (Lean `Int`): `grid[r][c]` becomes `g r c`.  Row 0 and column 0
are ignored by the C code, so nothing in the model reads them.

Each C function is translated into a Lean function:
  * `checkRow` / `checkCol` (sudoku.c lines 125-210): a loop over the unit's
    cells with a local seen array, a local completeness flag and an early
    `break` on a duplicate, modelled by the structural recursion `scanUnit`
    (the seen array of booleans becomes the list of values marked seen).
  * `checkSubgrid` (lines 229-256): a nested loop whose `break` leaves only
    the inner loop; the seen array persists across block rows, and the
    invalid flag is sticky.  `subgridRowLoop` models the inner loop and
    `subgridBlockLoop` the outer one.
  * `checkPuzzle` (lines 276-357): spawns one checker per row, per column and
    (when `psize` has an integer square root greater than 1) per subgrid,
    each writing to its own exclusive pair of result slots, then aggregates
    them after the join barrier.  Since the tasks touch disjoint slots and
    only read the grid, the concurrent execution is equivalent to evaluating
    every unit check independently and aggregating; `unitResults` lists the
    per-task result slots in thread-creation order and `checkPuzzle` returns
    the aggregated `(complete, valid)` pair.
  * `solveMissingNumber` (lines 60-103): a row-major in-place scan; the
    per-cell body is `solveCell` and the nested loops are folds that thread
    the evolving grid.
-/

/-- A Sudoku grid: 1-based cell lookup, value 0 = empty cell (C `int **grid`). -/
def Grid : Type := Nat → Nat → Int

/-- The integer square root `(int)sqrt((double)n)` used by the C code: the
largest `s` with `s * s ≤ n` (exact for the `int` range handled here). -/
def isqrt (n : Nat) : Nat :=
  ((List.range (n + 1)).filter (fun s => s * s ≤ n)).getLastD 0

/-- The index list [1, 2, ..., n], the range of the C loops `for (i = 1; i <= n; i++)`. -/
def range1 (n : Nat) : List Nat := (List.range n).map (fun k => k + 1)

/-- Build a grid from a row-major list of rows (1-based; out-of-range cells read 0). -/
def gOf (rows : List (List Int)) : Grid :=
  fun r c => ((rows.getD (r - 1) []).getD (c - 1) 0)

/-- Store value `v` at cell (row, col): the C assignment `grid[row][col] = v`. -/
def updateGrid (g : Grid) (row col : Nat) (v : Int) : Grid :=
  fun r c => if r = row ∧ c = col then v else g r c

/-- The values of row `r` in scan order: `grid[r][1..N]` (read by `checkRow`). -/
def rowVals (g : Grid) (N r : Nat) : List Int := (range1 N).map (fun c => g r c)

/-- The values of column `c` in scan order: `grid[1..N][c]` (read by `checkCol`). -/
def colVals (g : Grid) (N c : Nat) : List Int := (range1 N).map (fun r => g r c)

/-- The loop body shared verbatim by `checkRow` (sudoku.c lines 188-203) and
`checkCol` (lines 135-149): scan the unit's values in order with a seen set
and a completeness flag; a value `v ≤ 0` clears the completeness flag and is
skipped; a positive value already seen sets the invalid flag and `break`s;
otherwise the value is marked seen.  Returns (invalid, rowComplete). -/
def scanUnit : List Int → List Int → Bool → Bool × Bool
  | [], _, rowComplete => (false, rowComplete)
  | v :: vs, seen, rowComplete =>
    if v ≤ 0 then scanUnit vs seen false
    else if v ∈ seen then (true, rowComplete)
    else scanUnit vs (v :: seen) rowComplete

/-- `checkRow` (sudoku.c lines 178-210): returns the (invalid-slot, complete-slot)
pair the thread leaves behind; the complete slot, initialized `true`, is set to
`false` exactly when the local `rowComplete` flag ended up `false`. -/
def checkRow (g : Grid) (N r : Nat) : Bool × Bool :=
  scanUnit (rowVals g N r) [] true

/-- `checkCol` (sudoku.c lines 125-156): same scan over a column's values. -/
def checkCol (g : Grid) (N c : Nat) : Bool × Bool :=
  scanUnit (colVals g N c) [] true

/-- The block anchored at (row, col) as a list of its rows of values:
`grid[row + i][col + j]` for `i, j` in `0 .. sqrt(N) - 1` (read by `checkSubgrid`). -/
def subgridRows (g : Grid) (N row col : Nat) : List (List Int) :=
  (range1 (isqrt N)).map (fun i =>
    (range1 (isqrt N)).map (fun j => g (row + i - 1) (col + j - 1)))

/-- All values of the block anchored at (row, col), in scan order. -/
def subgridVals (g : Grid) (N row col : Nat) : List Int :=
  (subgridRows g N row col).flatten

/-- Inner loop of `checkSubgrid` (sudoku.c lines 241-251): scan one block row
with the running seen set; on a value already seen, set invalid and `break`
(which abandons only this block row).  Returns (invalid, seen after the row).
Note the C code performs no zero test here: a 0 cell is looked up in the seen
array like any value. -/
def subgridRowLoop : List Int → List Int → Bool × List Int
  | [], seen => (false, seen)
  | v :: vs, seen =>
    if v ∈ seen then (true, seen)
    else subgridRowLoop vs (v :: seen)

/-- Outer loop of `checkSubgrid` (sudoku.c lines 238-253): iterate the block
rows, threading the seen set; the invalid flag, once set, stays set. -/
def subgridBlockLoop : List (List Int) → List Int → Bool → Bool
  | [], _, invalid => invalid
  | rvs :: rest, seen, invalid =>
    let p := subgridRowLoop rvs seen
    subgridBlockLoop rest p.2 (invalid || p.1)

/-- `checkSubgrid` (sudoku.c lines 229-256): returns the (invalid-slot,
complete-slot) pair; the function never writes the complete slot, which
therefore keeps its initial value `true`. -/
def checkSubgrid (g : Grid) (N row col : Nat) : Bool × Bool :=
  (subgridBlockLoop (subgridRows g N row col) [] false, true)

/-- The subgrid flag of `checkPuzzle` (sudoku.c lines 277-281):
`sqrtPsize * sqrtPsize == psize && sqrtPsize > 1`. -/
def sgFlag (N : Nat) : Bool := (isqrt N * isqrt N == N) && (1 < isqrt N)

/-- The block anchors produced by `for (row = 1; row <= psize; row += subGridSize)`
(sudoku.c lines 328-329): the indices 1, 1+s, 1+2s, ... up to `psize`, i.e. the
`r` in 1..N with `(r - 1) % sqrt N = 0`. -/
def blockStarts (N : Nat) : List Nat :=
  (range1 N).filter (fun r => (r - 1) % isqrt N = 0)

/-- The per-task result slots of `checkPuzzle` in thread-creation order
(sudoku.c lines 298-343): for each `i` in 1..N a row task then a column task,
followed (when the subgrid flag is set) by one task per block anchor. -/
def unitResults (N : Nat) (g : Grid) : List (Bool × Bool) :=
  ((range1 N).flatMap (fun i => [checkRow g N i, checkCol g N i]))
  ++ (if sgFlag N then
        (blockStarts N).flatMap (fun r =>
          (blockStarts N).map (fun c => checkSubgrid g N r c))
      else [])

/-- `totalThreads = psize * 2 + (flag ? psize : 0)` (sudoku.c line 284). -/
def totalThreads (N : Nat) : Nat := N * 2 + (if sgFlag N then N else 0)

/-- `checkPuzzle` (sudoku.c lines 276-357): aggregate the joined tasks' slots:
`complete` unless some task cleared its complete slot, `valid` unless some
task set its invalid slot.  Returns (complete, valid). -/
def checkPuzzle (N : Nat) (g : Grid) : Bool × Bool :=
  ((unitResults N g).all (fun p => p.2), (unitResults N g).all (fun p => !p.1))

/-- The `possible` array computed by `solveMissingNumber` for an empty cell
(sudoku.c lines 70-93), read off as the list of candidate digits in 1..N:
digit `k` survives unless some `n` in 1..N has `grid[row][n]` or `grid[n][col]`
positive and equal to `k`. -/
def candidates (g : Grid) (N row col : Nat) : List Nat :=
  (range1 N).filter (fun k =>
    !((range1 N).any (fun n =>
      ((0 < g row n) && (g row n == (k : Int)))
      || ((0 < g n col) && (g n col == (k : Int))))))

/-- The body of the double loop of `solveMissingNumber` at one cell
(sudoku.c lines 69-100): if the cell is empty, compute the candidates; if
exactly one candidate remains, write it (`missingNum` holds the last — here
the only — surviving digit); otherwise leave the grid alone. -/
def solveCell (g : Grid) (N row col : Nat) : Grid :=
  if g row col = 0 then
    let cands := candidates g N row col
    if cands.length = 1 then updateGrid g row col ((cands.getLastD 0 : Nat) : Int)
    else g
  else g

/-- `solveMissingNumber` (sudoku.c lines 60-103): the row-major double loop,
threading the mutated grid through every cell visit. -/
def solveMissingNumber (g : Grid) (N : Nat) : Grid :=
  (range1 N).foldl (fun h row =>
    (range1 N).foldl (fun h2 col => solveCell h2 N row col) h) g

/-- All cells (r, c) with r, c in 1..N, in the row-major visit order of
`solveMissingNumber`. -/
def rowMajorCells (N : Nat) : List (Nat × Nat) :=
  (range1 N).flatMap (fun r => (range1 N).map (fun c => (r, c)))

/-! ## Spec-side definitions

These follow the specification's wording (candidate set, duplicate in a
unit) so that the code-derived functions above can be compared against
them. -/

/-- The spec's "nonzero values in that cell's row and column": the positive
values among the entries `1..N` of row `row` and of column `col` (the scan
includes the cell itself, which is harmless when that cell is empty). -/
def specPeerVals (g : Grid) (N row col : Nat) : Finset Int :=
  (((Finset.Icc 1 N).image (fun n => g row n))
    ∪ ((Finset.Icc 1 N).image (fun n => g n col))).filter (fun v => 0 < v)

/-- The spec's candidate set for a cell: the digits {1..N} minus all nonzero
values in the cell's row and column. -/
def specCands (g : Grid) (N row col : Nat) : Finset Nat :=
  (Finset.Icc 1 N).filter (fun k => ¬ ((k : Int) ∈ specPeerVals g N row col))

/-- The digits of {1..N} that do occur among the cell's row/column peers. -/
def specPeerDigits (g : Grid) (N row col : Nat) : Finset Nat :=
  (Finset.Icc 1 N).filter (fun k => (k : Int) ∈ specPeerVals g N row col)

/-- The spec's "some row, column, or subgrid contains a duplicate nonzero
value" (subgrids counted only when the code's subgrid flag applies). -/
def specHasNonzeroDup (N : Nat) (g : Grid) : Prop :=
  (∃ i ∈ Finset.Icc 1 N,
      ¬ ((rowVals g N i).filter (fun v => 0 < v)).Nodup
      ∨ ¬ ((colVals g N i).filter (fun v => 0 < v)).Nodup)
  ∨ (sgFlag N = true ∧ ∃ r ∈ blockStarts N, ∃ c ∈ blockStarts N,
      ¬ ((subgridVals g N r c).filter (fun v => 0 < v)).Nodup)

/-! ## State-threaded view of the validation pass

The C unit checkers receive the grid by pointer and could in principle
store through it; to state the frame property we model each task as a
function from the incoming grid state to its result slots together with the
grid state it leaves behind.  Inspecting sudoku.c lines 125-256 shows the
checkers contain no assignment through `data->grid`, so each task returns
the grid it received; the theorem below then shows the whole orchestrated
pass leaves the grid state unchanged and produces the same flags as the
pure `checkPuzzle`. -/

def checkRowSt (N r : Nat) : Grid → (Bool × Bool) × Grid :=
  fun g => (checkRow g N r, g)

def checkColSt (N c : Nat) : Grid → (Bool × Bool) × Grid :=
  fun g => (checkCol g N c, g)

def checkSubgridSt (N row col : Nat) : Grid → (Bool × Bool) × Grid :=
  fun g => (checkSubgrid g N row col, g)

/-- The task list of `checkPuzzle`, in creation order (sudoku.c lines 298-343). -/
def puzzleTasks (N : Nat) : List (Grid → (Bool × Bool) × Grid) :=
  ((range1 N).flatMap (fun i => [checkRowSt N i, checkColSt N i]))
  ++ (if sgFlag N then
        (blockStarts N).flatMap (fun r =>
          (blockStarts N).map (fun c => checkSubgridSt N r c))
      else [])

/-- Run the tasks one after another, each receiving the grid state left by
its predecessor and appending its result slot. -/
def runTasks (tasks : List (Grid → (Bool × Bool) × Grid)) (g : Grid) :
    List (Bool × Bool) × Grid :=
  tasks.foldl (fun acc t => (acc.1 ++ [(t acc.2).1], (t acc.2).2)) ([], g)

/-- `checkPuzzle` with the grid state threaded through every task. -/
def checkPuzzleSt (N : Nat) (g : Grid) : (Bool × Bool) × Grid :=
  ((((runTasks (puzzleTasks N) g).1).all (fun p => p.2),
    ((runTasks (puzzleTasks N) g).1).all (fun p => !p.1)),
   (runTasks (puzzleTasks N) g).2)

/-! ## Concrete grids used as witnesses and counterexamples -/

/-- A fully filled, rule-satisfying 4x4 grid. -/
def g14 : Grid := gOf [[1,2,3,4],[3,4,1,2],[2,1,4,3],[4,3,2,1]]

/-- A 3x3 grid with a zero at (3,3) whose row and column scans both hit a
duplicate before reaching the zero. -/
def cexC2grid : Grid := gOf [[1,1,2],[2,3,2],[3,3,0]]

/-- A 2x2 grid with a zero at (1,2) and no duplicates anywhere. -/
def witC2grid : Grid := gOf [[1,0],[0,0]]

/-- The all-empty 4x4 grid: no nonzero value at all, yet every subgrid scan
sees the value 0 repeatedly. -/
def zeroGrid4 : Grid := gOf [[0,0,0,0],[0,0,0,0],[0,0,0,0],[0,0,0,0]]

/-- A duplicate-free 4x4 grid in which cell (2,1) and cell (2,2) both have
the single candidate 1, so the row-major fill of (2,1) destroys (2,2)'s
candidate within the same pass. -/
def cexC4grid : Grid := gOf [[2,0,0,0],[0,0,3,4],[0,2,0,0],[0,0,0,0]]

/-- A 2x2 grid with an empty cell at (1,1) whose column peer fixes its
candidate. -/
def witC4grid : Grid := gOf [[0,0],[2,0]]

/-- A 4x4 grid whose top-left subgrid holds the nonzero value 1 twice. -/
def c6grid : Grid := gOf [[1,0,0,0],[1,0,0,0],[0,0,0,0],[0,0,0,0]]

/-- A fully filled 2x2 grid. -/
def c8grid : Grid := gOf [[1,2],[2,1]]

/-- The empty grid function (every cell reads 0). -/
def emptyGrid : Grid := gOf []

/-- A 2x2 grid on which one filler call fills the chain (1,1) then (1,2)
then (2,2), although (1,2) had two candidates in the original grid. -/
def chainGrid : Grid := gOf [[0,0],[2,0]]

instance specHasNonzeroDupDec (N : Nat) (g : Grid) :
    Decidable (specHasNonzeroDup N g) := by
  unfold specHasNonzeroDup
  infer_instance

/-! ## Basic facts about the index lists -/

theorem mem_range1 {n i : Nat} : i ∈ range1 n ↔ 1 ≤ i ∧ i ≤ n := by
  unfold range1
  simp only [List.mem_map, List.mem_range]
  constructor
  · rintro ⟨a, ha, rfl⟩
    omega
  · rintro ⟨h1, h2⟩
    exact ⟨i - 1, by omega, by omega⟩

theorem nodup_range1 (n : Nat) : (range1 n).Nodup := by
  unfold range1
  exact (List.nodup_range n).map (fun a b h => by omega)

/-! ## Characterization of the row/column scan -/

/-- Once the local completeness flag is cleared it can never be set again:
the scan's second output is `false` whenever it starts from `false`. -/
theorem scanUnit_comp_of_false (vs : List Int) :
    ∀ seen : List Int, (scanUnit vs seen false).2 = false := by
  induction vs with
  | nil => intro seen; rfl
  | cons v vs ih =>
    intro seen
    by_cases hv : v ≤ 0
    · simpa [scanUnit, hv] using ih seen
    · by_cases hm : v ∈ seen
      · simp [scanUnit, hv, hm]
      · simpa [scanUnit, hv, hm] using ih (v :: seen)

/-- The scan reports a duplicate exactly when the unit's positive values,
together with the values already marked seen, contain a repetition.  Zeros
are skipped by the `val <= 0` guard and can never count as duplicates. -/
theorem scanUnit_inv_eq_false (vs : List Int) :
    ∀ (seen : List Int) (rc : Bool), seen.Nodup →
      ((scanUnit vs seen rc).1 = false ↔
        (vs.filter (fun v => 0 < v) ++ seen).Nodup) := by
  induction vs with
  | nil => intro seen rc h; simpa [scanUnit]
  | cons v vs ih =>
    intro seen rc h
    by_cases hv : v ≤ 0
    · have hf : (v :: vs).filter (fun v => 0 < v) = vs.filter (fun v => 0 < v) := by
        simp [List.filter_cons, show ¬ (0:Int) < v by omega]
      rw [show scanUnit (v :: vs) seen rc = scanUnit vs seen false from by
        simp [scanUnit, hv], hf, ih seen false h]
    · push_neg at hv
      have hf : (v :: vs).filter (fun v => 0 < v) = v :: vs.filter (fun v => 0 < v) := by
        simp [List.filter_cons, hv]
      by_cases hm : v ∈ seen
      · have hs : scanUnit (v :: vs) seen rc = (true, rc) := by
          simp [scanUnit, hm, show ¬ v ≤ 0 by omega]
        rw [hs, hf]
        simp only [List.cons_append]
        constructor
        · intro hfalse; cases hfalse
        · intro hnd
          rcases List.nodup_cons.mp hnd with ⟨hnot, _⟩
          exact absurd (List.mem_append.mpr (Or.inr hm)) hnot
      · have hs : scanUnit (v :: vs) seen rc = scanUnit vs (v :: seen) rc := by
          simp [scanUnit, hm, show ¬ v ≤ 0 by omega]
        have h' : (v :: seen).Nodup := List.nodup_cons.mpr ⟨hm, h⟩
        rw [hs, ih (v :: seen) rc h', hf]
        have hperm : List.Perm (vs.filter (fun v => 0 < v) ++ (v :: seen))
            (v :: (vs.filter (fun v => 0 < v) ++ seen)) := List.perm_middle
        rw [hperm.nodup_iff]
        simp [List.cons_append]

/-- The scan clears the completeness flag exactly when some value `z ≤ 0`
occurs before the point where the scan `break`s: the values before `z`,
restricted to positives and joined with the initial seen set, are
repetition-free. -/
theorem scanUnit_comp_eq_false (vs : List Int) :
    ∀ seen : List Int, seen.Nodup →
      ((scanUnit vs seen true).2 = false ↔
        ∃ t z rest, vs = t ++ z :: rest ∧ z ≤ 0 ∧
          (t.filter (fun v => 0 < v) ++ seen).Nodup) := by
  induction vs with
  | nil =>
    intro seen h
    simp [scanUnit]
  | cons v vs ih =>
    intro seen h
    by_cases hv : v ≤ 0
    · have hs : scanUnit (v :: vs) seen true = scanUnit vs seen false := by
        simp [scanUnit, hv]
      rw [hs, scanUnit_comp_of_false]
      simp only [true_iff]
      exact ⟨[], v, vs, rfl, hv, by simpa using h⟩
    · push_neg at hv
      by_cases hm : v ∈ seen
      · have hs : scanUnit (v :: vs) seen true = (true, true) := by
          simp [scanUnit, hm, show ¬ v ≤ 0 by omega]
        rw [hs]
        constructor
        · intro hfalse; simp at hfalse
        · rintro ⟨t, z, rest, hdec, hz, hnd⟩
          exfalso
          cases t with
          | nil =>
            simp only [List.nil_append, List.cons.injEq] at hdec
            omega
          | cons w t' =>
            simp only [List.cons_append, List.cons.injEq] at hdec
            rcases hdec with ⟨rfl, _⟩
            have hfw : ((v :: t').filter (fun v => 0 < v)) = v :: t'.filter (fun v => 0 < v) := by
              simp [List.filter_cons, hv]
            rw [hfw] at hnd
            rcases List.nodup_cons.mp hnd with ⟨hnot, _⟩
            exact absurd (List.mem_append.mpr (Or.inr hm)) hnot
      · have hs : scanUnit (v :: vs) seen true = scanUnit vs (v :: seen) true := by
          simp [scanUnit, hm, show ¬ v ≤ 0 by omega]
        have h' : (v :: seen).Nodup := List.nodup_cons.mpr ⟨hm, h⟩
        rw [hs, ih (v :: seen) h']
        constructor
        · rintro ⟨t, z, rest, hdec, hz, hnd⟩
          refine ⟨v :: t, z, rest, by simp [hdec], hz, ?_⟩
          have hfw : ((v :: t).filter (fun v => 0 < v)) = v :: t.filter (fun v => 0 < v) := by
            simp [List.filter_cons, hv]
          rw [hfw]
          have hperm : List.Perm (t.filter (fun v => 0 < v) ++ (v :: seen))
              (v :: (t.filter (fun v => 0 < v) ++ seen)) := List.perm_middle
          rw [hperm.nodup_iff] at hnd
          simpa [List.cons_append] using hnd
        · rintro ⟨t, z, rest, hdec, hz, hnd⟩
          cases t with
          | nil =>
            simp only [List.nil_append, List.cons.injEq] at hdec
            omega
          | cons w t' =>
            simp only [List.cons_append, List.cons.injEq] at hdec
            rcases hdec with ⟨rfl, rfl⟩
            refine ⟨t', z, rest, rfl, hz, ?_⟩
            have hfw : ((v :: t').filter (fun v => 0 < v)) = v :: t'.filter (fun v => 0 < v) := by
              simp [List.filter_cons, hv]
            rw [hfw] at hnd
            have hperm : List.Perm (t'.filter (fun v => 0 < v) ++ (v :: seen))
                (v :: (t'.filter (fun v => 0 < v) ++ seen)) := List.perm_middle
            rw [hperm.nodup_iff]
            simpa [List.cons_append] using hnd

/-! ## Characterization of the subgrid scan -/

/-- One block row finishes without firing exactly when its values, joined
with the values already seen, are repetition-free; in that case the seen set
ends up holding all of them. -/
theorem subgridRowLoop_spec (vs : List Int) :
    ∀ seen : List Int, seen.Nodup →
      (((subgridRowLoop vs seen).1 = false ↔ (vs ++ seen).Nodup)
        ∧ ((vs ++ seen).Nodup → (subgridRowLoop vs seen).2 = vs.reverse ++ seen)) := by
  induction vs with
  | nil =>
    intro seen h
    exact ⟨by simpa [subgridRowLoop], fun _ => by simp [subgridRowLoop]⟩
  | cons v vs ih =>
    intro seen h
    by_cases hm : v ∈ seen
    · have hs : subgridRowLoop (v :: vs) seen = (true, seen) := by
        simp [subgridRowLoop, hm]
      constructor
      · rw [hs]
        constructor
        · intro hfalse; simp at hfalse
        · intro hnd
          exfalso
          simp only [List.cons_append, List.nodup_cons, List.mem_append] at hnd
          exact hnd.1 (Or.inr hm)
      · intro hnd
        exfalso
        simp only [List.cons_append, List.nodup_cons, List.mem_append] at hnd
        exact hnd.1 (Or.inr hm)
    · have hs : subgridRowLoop (v :: vs) seen = subgridRowLoop vs (v :: seen) := by
        simp [subgridRowLoop, hm]
      have h' : (v :: seen).Nodup := List.nodup_cons.mpr ⟨hm, h⟩
      have hperm : List.Perm (vs ++ (v :: seen)) (v :: (vs ++ seen)) := List.perm_middle
      have hiff : (vs ++ (v :: seen)).Nodup ↔ ((v :: vs) ++ seen).Nodup := by
        rw [hperm.nodup_iff]; simp [List.cons_append]
      constructor
      · rw [hs, (ih (v :: seen) h').1, hiff]
      · intro hnd
        rw [hs, (ih (v :: seen) h').2 (hiff.mpr hnd)]
        simp [List.reverse_cons, List.append_assoc]

/-- The sticky invalid flag: once set, the block loop returns `true`. -/
theorem subgridBlockLoop_of_true (rows : List (List Int)) :
    ∀ seen : List Int, subgridBlockLoop rows seen true = true := by
  induction rows with
  | nil => intro seen; rfl
  | cons rvs rest ih => intro seen; simpa [subgridBlockLoop] using ih (subgridRowLoop rvs seen).2

/-- The block scan ends with the invalid flag clear exactly when it started
clear and all the block's values (zeros included, which the C code does not
special-case here) are pairwise distinct. -/
theorem subgridBlockLoop_spec (rows : List (List Int)) :
    ∀ (seen : List Int) (inv : Bool), seen.Nodup →
      (subgridBlockLoop rows seen inv = false ↔
        inv = false ∧ (rows.flatten ++ seen).Nodup) := by
  induction rows with
  | nil =>
    intro seen inv h
    simpa [subgridBlockLoop] using fun _ => h
  | cons rvs rest ih =>
    intro seen inv h
    by_cases hnd : (rvs ++ seen).Nodup
    · have hb : (subgridRowLoop rvs seen).1 = false := ((subgridRowLoop_spec rvs seen h).1).mpr hnd
      have hseen : (subgridRowLoop rvs seen).2 = rvs.reverse ++ seen :=
        (subgridRowLoop_spec rvs seen h).2 hnd
      have h2 : (rvs.reverse ++ seen).Nodup := by
        have : List.Perm (rvs ++ seen) (rvs.reverse ++ seen) :=
          (List.reverse_perm rvs).symm.append_right seen
        exact this.nodup_iff.mp hnd
      have hs : subgridBlockLoop (rvs :: rest) seen inv
          = subgridBlockLoop rest (rvs.reverse ++ seen) (inv || false) := by
        simp only [subgridBlockLoop]
        rw [hb, hseen]
      rw [hs, Bool.or_false, ih (rvs.reverse ++ seen) inv h2]
      have p1 : List.Perm (rest.flatten ++ (rvs.reverse ++ seen))
          (rest.flatten ++ (rvs ++ seen)) :=
        List.Perm.append_left _ ((List.reverse_perm rvs).append_right seen)
      have p2 : List.Perm (rest.flatten ++ (rvs ++ seen))
          ((rvs ++ rest.flatten) ++ seen) := by
        rw [show rest.flatten ++ (rvs ++ seen) = (rest.flatten ++ rvs) ++ seen from by
          rw [List.append_assoc]]
        exact (List.perm_append_comm).append_right seen
      have hperm : List.Perm (rest.flatten ++ (rvs.reverse ++ seen))
          ((rvs :: rest).flatten ++ seen) := by
        refine (p1.trans p2).trans ?_
        simp [List.flatten_cons, List.append_assoc]
      rw [hperm.nodup_iff]
    · have hb : (subgridRowLoop rvs seen).1 = true := by
        rcases Bool.eq_false_or_eq_true (subgridRowLoop rvs seen).1 with hb | hb
        · exact hb
        · exact absurd (((subgridRowLoop_spec rvs seen h).1).mp hb) hnd
      have hs : subgridBlockLoop (rvs :: rest) seen inv
          = subgridBlockLoop rest (subgridRowLoop rvs seen).2 (inv || true) := by
        simp only [subgridBlockLoop]
        rw [hb]
      rw [hs, Bool.or_true, subgridBlockLoop_of_true]
      constructor
      · intro hfalse; simp at hfalse
      · rintro ⟨_, hjoin⟩
        exfalso
        apply hnd
        have hsub : (rvs ++ seen).Sublist ((rvs :: rest).flatten ++ seen) := by
          simp only [List.flatten_cons, List.append_assoc]
          exact (List.sublist_append_right rest.flatten seen).append_left rvs
        exact hjoin.sublist hsub

/-! ## Per-unit corollaries -/

theorem checkRow_inv_eq_false (g : Grid) (N i : Nat) :
    (checkRow g N i).1 = false ↔ ((rowVals g N i).filter (fun v => 0 < v)).Nodup := by
  have h := scanUnit_inv_eq_false (rowVals g N i) [] true List.nodup_nil
  simpa [checkRow] using h

theorem checkCol_inv_eq_false (g : Grid) (N i : Nat) :
    (checkCol g N i).1 = false ↔ ((colVals g N i).filter (fun v => 0 < v)).Nodup := by
  have h := scanUnit_inv_eq_false (colVals g N i) [] true List.nodup_nil
  simpa [checkCol] using h

theorem checkSubgrid_inv_eq_false (g : Grid) (N row col : Nat) :
    (checkSubgrid g N row col).1 = false ↔ (subgridVals g N row col).Nodup := by
  have h := subgridBlockLoop_spec (subgridRows g N row col) [] false List.nodup_nil
  simpa [checkSubgrid, subgridVals] using h

theorem checkRow_inv_eq_true (g : Grid) (N i : Nat) :
    (checkRow g N i).1 = true ↔ ¬ ((rowVals g N i).filter (fun v => 0 < v)).Nodup := by
  have h := checkRow_inv_eq_false g N i
  constructor
  · intro ht hnd
    rw [h.mpr hnd] at ht
    cases ht
  · intro hnd
    cases hb : (checkRow g N i).1
    · exact absurd (h.mp hb) hnd
    · rfl

theorem checkCol_inv_eq_true (g : Grid) (N i : Nat) :
    (checkCol g N i).1 = true ↔ ¬ ((colVals g N i).filter (fun v => 0 < v)).Nodup := by
  have h := checkCol_inv_eq_false g N i
  constructor
  · intro ht hnd
    rw [h.mpr hnd] at ht
    cases ht
  · intro hnd
    cases hb : (checkCol g N i).1
    · exact absurd (h.mp hb) hnd
    · rfl

theorem checkSubgrid_inv_eq_true (g : Grid) (N row col : Nat) :
    (checkSubgrid g N row col).1 = true ↔ ¬ (subgridVals g N row col).Nodup := by
  have h := checkSubgrid_inv_eq_false g N row col
  constructor
  · intro ht hnd
    rw [h.mpr hnd] at ht
    cases ht
  · intro hnd
    cases hb : (checkSubgrid g N row col).1
    · exact absurd (h.mp hb) hnd
    · rfl

theorem checkRow_comp_eq_false (g : Grid) (N i : Nat) :
    (checkRow g N i).2 = false ↔
      ∃ t z rest, rowVals g N i = t ++ z :: rest ∧ z ≤ 0 ∧
        (t.filter (fun v => 0 < v)).Nodup := by
  have h := scanUnit_comp_eq_false (rowVals g N i) [] List.nodup_nil
  simpa [checkRow] using h

theorem checkCol_comp_eq_false (g : Grid) (N i : Nat) :
    (checkCol g N i).2 = false ↔
      ∃ t z rest, colVals g N i = t ++ z :: rest ∧ z ≤ 0 ∧
        (t.filter (fun v => 0 < v)).Nodup := by
  have h := scanUnit_comp_eq_false (colVals g N i) [] List.nodup_nil
  simpa [checkCol] using h

/-! ## Aggregation over the task results -/

theorem mem_unitResults {N : Nat} {g : Grid} {q : Bool × Bool} :
    q ∈ unitResults N g ↔
      ((∃ i, (1 ≤ i ∧ i ≤ N) ∧ (q = checkRow g N i ∨ q = checkCol g N i))
        ∨ (sgFlag N = true ∧ ∃ r c, r ∈ blockStarts N ∧ c ∈ blockStarts N ∧
            q = checkSubgrid g N r c)) := by
  unfold unitResults
  by_cases hf : sgFlag N = true
  · simp only [hf, if_pos, List.mem_append, List.mem_flatMap, List.mem_map,
      List.mem_cons, List.mem_singleton, List.not_mem_nil, or_false, mem_range1]
    constructor
    · rintro (⟨i, hi, hq⟩ | ⟨r, hr, c, hc, hq⟩)
      · exact Or.inl ⟨i, hi, hq⟩
      · exact Or.inr ⟨by simp [hf], r, c, hr, hc, hq.symm⟩
    · rintro (⟨i, hi, hq⟩ | ⟨-, r, c, hr, hc, hq⟩)
      · exact Or.inl ⟨i, hi, hq⟩
      · exact Or.inr ⟨r, hr, c, hc, hq.symm⟩
  · simp only [hf, if_neg, Bool.not_eq_true, List.append_nil, List.mem_flatMap,
      List.mem_cons, List.mem_singleton, List.not_mem_nil, or_false, mem_range1]
    constructor
    · rintro ⟨i, hi, hq⟩
      exact Or.inl ⟨i, hi, hq⟩
    · rintro (⟨i, hi, hq⟩ | ⟨hflag, -⟩)
      · exact ⟨i, hi, hq⟩
      · exact absurd hflag (by simp)

theorem checkPuzzle_complete_eq_false_iff (N : Nat) (g : Grid) :
    (checkPuzzle N g).1 = false ↔ ∃ q ∈ unitResults N g, q.2 = false := by
  simp [checkPuzzle, List.all_eq_false]

theorem checkPuzzle_valid_eq_false_iff_slot (N : Nat) (g : Grid) :
    (checkPuzzle N g).2 = false ↔ ∃ q ∈ unitResults N g, q.1 = true := by
  simp [checkPuzzle, List.all_eq_false]

theorem checkPuzzle_complete_eq_true_iff (N : Nat) (g : Grid) :
    (checkPuzzle N g).1 = true ↔ ∀ q ∈ unitResults N g, q.2 = true := by
  simp [checkPuzzle, List.all_eq_true]

theorem checkPuzzle_valid_eq_true_iff (N : Nat) (g : Grid) :
    (checkPuzzle N g).2 = true ↔ ∀ q ∈ unitResults N g, q.1 = false := by
  simp [checkPuzzle, List.all_eq_true]

/-- The complete flag ignores the subgrid tasks: it is the conjunction of the
row and column tasks' complete slots alone, because a subgrid task's complete
slot is identically `true`. -/
theorem checkPuzzle_complete_rowcol (N : Nat) (g : Grid) :
    (checkPuzzle N g).1
      = (range1 N).all (fun i => (checkRow g N i).2 && (checkCol g N i).2) := by
  show (unitResults N g).all (fun p => p.2) = _
  unfold unitResults
  rw [List.all_append]
  have hsub : ((if sgFlag N then
      (blockStarts N).flatMap (fun r =>
        (blockStarts N).map (fun c => checkSubgrid g N r c))
      else []).all (fun p => p.2)) = true := by
    rw [List.all_eq_true]
    intro q hq
    by_cases hf : sgFlag N = true
    · rw [if_pos hf] at hq
      rcases List.mem_flatMap.mp hq with ⟨r, _, hq⟩
      rcases List.mem_map.mp hq with ⟨c, _, rfl⟩
      rfl
    · rw [if_neg hf] at hq
      cases hq
  rw [hsub, Bool.and_true]
  induction range1 N with
  | nil => rfl
  | cons i l ih =>
    rw [List.flatMap_cons, List.all_append, ih]
    simp [List.all_cons]

/-! ## The filler: fold lemmas -/

/-- If no visited cell triggers a write, the fold leaves the grid untouched. -/
theorem foldl_grid_id {α : Type} (step : Grid → α → Grid) (g : Grid) :
    ∀ l : List α, (∀ x ∈ l, step g x = g) → l.foldl step g = g := by
  intro l
  induction l with
  | nil => intro _; rfl
  | cons x l ih =>
    intro h
    have hx : step g x = g := h x (List.mem_cons_self x l)
    rw [List.foldl_cons, hx]
    exact ih (fun y hy => h y (List.mem_cons_of_mem x hy))

/-- Flattening a nested fold over an index rectangle into a single fold over
the row-major pair list. -/
theorem foldl_flatMap_pairs (inner : List Nat) (step : Grid → Nat → Nat → Grid) :
    ∀ (outer : List Nat) (g : Grid),
      outer.foldl (fun h row => inner.foldl (fun h2 col => step h2 row col) h) g
        = (outer.flatMap (fun r => inner.map (fun c => (r, c)))).foldl
            (fun h p => step h p.1 p.2) g := by
  intro outer
  induction outer with
  | nil => intro g; rfl
  | cons r l ih =>
    intro g
    rw [List.foldl_cons, List.flatMap_cons, List.foldl_append, List.foldl_map, ih]

/-- `solveMissingNumber` is the fold of the per-cell body over the cells in
row-major order: the nested loops flatten into one pass that threads the
partially updated grid. -/
theorem solveMissingNumber_eq_foldl (g : Grid) (N : Nat) :
    solveMissingNumber g N
      = (rowMajorCells N).foldl (fun h p => solveCell h N p.1 p.2) g := by
  unfold solveMissingNumber rowMajorCells
  exact foldl_flatMap_pairs (range1 N) (fun h r c => solveCell h N r c) (range1 N) g

/-! ## The filler's candidate computation versus the spec's candidate set -/

theorem mem_candidates_iff (g : Grid) (N row col k : Nat) :
    k ∈ candidates g N row col ↔
      ((1 ≤ k ∧ k ≤ N) ∧ ∀ n, 1 ≤ n → n ≤ N →
        g row n ≠ (k : Int) ∧ g n col ≠ (k : Int)) := by
  unfold candidates
  rw [List.mem_filter, mem_range1]
  have hb : ∀ n : Nat,
      ((((0 < g row n) && (g row n == (k : Int)))
        || ((0 < g n col) && (g n col == (k : Int)))) = true)
        ↔ ((0 < g row n ∧ g row n = (k : Int))
            ∨ (0 < g n col ∧ g n col = (k : Int))) := by
    intro n
    simp
  constructor
  · rintro ⟨hk, hcond⟩
    rw [Bool.not_eq_true', List.any_eq_false] at hcond
    refine ⟨hk, ?_⟩
    intro n h1 h2
    have hnot : ¬ ((0 < g row n ∧ g row n = (k : Int))
        ∨ (0 < g n col ∧ g n col = (k : Int))) := by
      intro hP
      exact hcond n (mem_range1.mpr ⟨h1, h2⟩) ((hb n).mpr hP)
    constructor
    · intro he
      exact hnot (Or.inl ⟨by rw [he]; exact_mod_cast hk.1, he⟩)
    · intro he
      exact hnot (Or.inr ⟨by rw [he]; exact_mod_cast hk.1, he⟩)
  · rintro ⟨hk, hcond⟩
    refine ⟨hk, ?_⟩
    rw [Bool.not_eq_true', List.any_eq_false]
    intro n hn hfb
    rcases mem_range1.mp hn with ⟨h1, h2⟩
    rcases (hb n).mp hfb with ⟨-, he⟩ | ⟨-, he⟩
    · exact (hcond n h1 h2).1 he
    · exact (hcond n h1 h2).2 he

theorem mem_specCands_iff (g : Grid) (N row col k : Nat) :
    k ∈ specCands g N row col ↔
      ((1 ≤ k ∧ k ≤ N) ∧ ∀ n, 1 ≤ n → n ≤ N →
        g row n ≠ (k : Int) ∧ g n col ≠ (k : Int)) := by
  unfold specCands
  rw [Finset.mem_filter, Finset.mem_Icc]
  have hmem : ((k : Int) ∈ specPeerVals g N row col)
      ↔ (((∃ n, (1 ≤ n ∧ n ≤ N) ∧ g row n = (k : Int))
          ∨ (∃ n, (1 ≤ n ∧ n ≤ N) ∧ g n col = (k : Int))) ∧ (0 : Int) < (k : Int)) := by
    unfold specPeerVals
    rw [Finset.mem_filter, Finset.mem_union]
    simp [Finset.mem_image, Finset.mem_Icc]
  constructor
  · rintro ⟨hk, hcond⟩
    refine ⟨hk, ?_⟩
    intro n h1 h2
    have hpos : (0 : Int) < (k : Int) := by exact_mod_cast hk.1
    constructor
    · intro he
      exact hcond (hmem.mpr ⟨Or.inl ⟨n, ⟨h1, h2⟩, he⟩, hpos⟩)
    · intro he
      exact hcond (hmem.mpr ⟨Or.inr ⟨n, ⟨h1, h2⟩, he⟩, hpos⟩)
  · rintro ⟨hk, hcond⟩
    refine ⟨hk, ?_⟩
    intro hm
    rcases hmem.mp hm with ⟨(⟨n, ⟨h1, h2⟩, he⟩ | ⟨n, ⟨h1, h2⟩, he⟩), -⟩
    · exact (hcond n h1 h2).1 he
    · exact (hcond n h1 h2).2 he


/-- The filler's `possible` array and the spec's candidate set list the same
digits. -/
theorem candidates_toFinset (g : Grid) (N row col : Nat) :
    (candidates g N row col).toFinset = specCands g N row col := by
  ext k
  rw [List.mem_toFinset, mem_candidates_iff, mem_specCands_iff]

theorem candidates_nodup (g : Grid) (N row col : Nat) :
    (candidates g N row col).Nodup :=
  (nodup_range1 N).filter _

theorem candidates_length_eq_card (g : Grid) (N row col : Nat) :
    (candidates g N row col).length = (specCands g N row col).card := by
  rw [← candidates_toFinset,
    List.toFinset_card_of_nodup (candidates_nodup g N row col)]

/-! ## Behavior of the per-cell filler step -/

/-- A non-empty cell is skipped untouched. -/
theorem solveCell_of_filled (g : Grid) (N row col : Nat) (h0 : g row col ≠ 0) :
    solveCell g N row col = g := by
  unfold solveCell
  rw [if_neg h0]

/-- An empty cell with a unique candidate gets that candidate written. -/
theorem solveCell_of_card_one (g : Grid) (N row col : Nat) (h0 : g row col = 0)
    (y : Nat) (hy : specCands g N row col = {y}) :
    solveCell g N row col = updateGrid g row col (y : Int) := by
  have hlen : (candidates g N row col).length = 1 := by
    rw [candidates_length_eq_card, hy, Finset.card_singleton]
  rcases List.length_eq_one.mp hlen with ⟨a, ha⟩
  have hay : a = y := by
    have h := candidates_toFinset g N row col
    rw [ha, hy] at h
    have : a ∈ ({y} : Finset Nat) := by
      rw [← h]
      simp
    simpa using this
  unfold solveCell
  rw [if_pos h0]
  simp only [ha, hay, List.length_singleton, if_pos rfl]
  rfl

/-- An empty cell whose candidate count is not exactly one is left alone. -/
theorem solveCell_of_card_ne_one (g : Grid) (N row col : Nat) (h0 : g row col = 0)
    (h : (specCands g N row col).card ≠ 1) :
    solveCell g N row col = g := by
  have hlen : (candidates g N row col).length ≠ 1 := by
    rw [candidates_length_eq_card]; exact h
  unfold solveCell
  rw [if_pos h0, if_neg hlen]

/-- When the row/column peers hold exactly N-1 of the N digits, exactly one
candidate remains. -/
theorem specCands_card_of_peers (g : Grid) (N row col : Nat) (hN : 1 ≤ N)
    (h : (specPeerDigits g N row col).card = N - 1) :
    (specCands g N row col).card = 1 := by
  have hsub : specPeerDigits g N row col ⊆ Finset.Icc 1 N :=
    Finset.filter_subset _ _
  have hsd : specCands g N row col
      = Finset.Icc 1 N \ specPeerDigits g N row col := by
    ext k
    simp only [specCands, specPeerDigits, Finset.mem_filter, Finset.mem_sdiff,
      Finset.mem_Icc]
    tauto
  rw [hsd, Finset.card_sdiff hsub, h, Nat.card_Icc]
  omega

theorem runTasks_of_frame (tasks : List (Grid → (Bool × Bool) × Grid))
    (hfr : ∀ t ∈ tasks, ∀ g : Grid, (t g).2 = g) :
    ∀ (acc : List (Bool × Bool)) (g : Grid),
      tasks.foldl (fun acc t => (acc.1 ++ [(t acc.2).1], (t acc.2).2)) (acc, g)
        = (acc ++ tasks.map (fun t => (t g).1), g) := by
  induction tasks with
  | nil => intro acc g; simp
  | cons t ts ih =>
    intro acc g
    have hts : ∀ u ∈ ts, ∀ g : Grid, (u g).2 = g :=
      fun u hu => hfr u (List.mem_cons_of_mem t hu)
    rw [List.foldl_cons]
    have hstep : ((acc ++ [(t g).1]), (t g).2) = ((acc ++ [(t g).1]), g) := by
      rw [hfr t (List.mem_cons_self t ts) g]
    simp only [hfr t (List.mem_cons_self t ts) g]
    rw [ih hts (acc ++ [(t g).1]) g]
    simp [List.append_assoc]

theorem puzzleTasks_frame (N : Nat) :
    ∀ t ∈ puzzleTasks N, ∀ g : Grid, (t g).2 = g := by
  intro t ht g
  unfold puzzleTasks at ht
  rcases List.mem_append.mp ht with h | h
  · rcases List.mem_flatMap.mp h with ⟨i, _, hi⟩
    rcases List.mem_cons.mp hi with rfl | hi
    · rfl
    · rcases List.mem_cons.mp hi with rfl | hi
      · rfl
      · cases hi
  · by_cases hf : sgFlag N = true
    · rw [if_pos hf] at h
      rcases List.mem_flatMap.mp h with ⟨r, _, hr⟩
      rcases List.mem_map.mp hr with ⟨c, _, rfl⟩
      rfl
    · rw [if_neg hf] at h
      cases h

theorem puzzleTasks_results (N : Nat) (g : Grid) :
    (puzzleTasks N).map (fun t => (t g).1) = unitResults N g := by
  unfold puzzleTasks unitResults
  rw [List.map_append]
  congr 1
  · rw [List.map_flatMap]
    rfl
  · by_cases hf : sgFlag N = true
    · rw [if_pos hf, if_pos hf, List.map_flatMap]
      refine List.flatMap_congr ?_
      intro r _
      rw [List.map_map]
      rfl
    · rw [if_neg hf, if_neg hf]
      rfl

/-! ## The claims -/

/-- C1: for every fully filled grid of size N in {1,4,9,16} that satisfies
the Sudoku rules (values in 1..N and no duplicate in any row, column, or
subgrid), `checkPuzzle` sets complete=true and valid=true. -/
theorem c1_complete_valid (N : Nat) (g : Grid)
    (_hN : N = 1 ∨ N = 4 ∨ N = 9 ∨ N = 16)
    (hfill : ∀ r ∈ Finset.Icc 1 N, ∀ c ∈ Finset.Icc 1 N, 0 < g r c ∧ g r c ≤ N)
    (hrows : ∀ r ∈ Finset.Icc 1 N, (rowVals g N r).Nodup)
    (hcols : ∀ c ∈ Finset.Icc 1 N, (colVals g N c).Nodup)
    (hsubs : ∀ r ∈ blockStarts N, ∀ c ∈ blockStarts N, (subgridVals g N r c).Nodup) :
    checkPuzzle N g = (true, true) := by
  have hrowpos : ∀ i, 1 ≤ i → i ≤ N → ∀ v ∈ rowVals g N i, 0 < v := by
    intro i h1 h2 v hv
    rcases List.mem_map.mp hv with ⟨c, hc, rfl⟩
    rcases mem_range1.mp hc with ⟨hc1, hc2⟩
    exact (hfill i (Finset.mem_Icc.mpr ⟨h1, h2⟩) c (Finset.mem_Icc.mpr ⟨hc1, hc2⟩)).1
  have hcolpos : ∀ i, 1 ≤ i → i ≤ N → ∀ v ∈ colVals g N i, 0 < v := by
    intro i h1 h2 v hv
    rcases List.mem_map.mp hv with ⟨r, hr, rfl⟩
    rcases mem_range1.mp hr with ⟨hr1, hr2⟩
    exact (hfill r (Finset.mem_Icc.mpr ⟨hr1, hr2⟩) i (Finset.mem_Icc.mpr ⟨h1, h2⟩)).1
  have hcompfalse : ∀ (vs : List Int), (∀ v ∈ vs, 0 < v) →
      ¬ ∃ t z rest, vs = t ++ z :: rest ∧ z ≤ 0 ∧
        (t.filter (fun v => 0 < v)).Nodup := by
    rintro vs hpos ⟨t, z, rest, hdec, hz, -⟩
    have : z ∈ vs := by
      rw [hdec]
      exact List.mem_append.mpr (Or.inr (List.mem_cons_self z rest))
    have := hpos z this
    omega
  have h1 : (checkPuzzle N g).1 = true := by
    rw [checkPuzzle_complete_eq_true_iff]
    intro q hq
    rcases mem_unitResults.mp hq with ⟨i, ⟨hi1, hi2⟩, (rfl | rfl)⟩ | ⟨-, r, c, -, -, rfl⟩
    · cases hb : (checkRow g N i).2
      · exact absurd ((checkRow_comp_eq_false g N i).mp hb)
          (hcompfalse _ (hrowpos i hi1 hi2))
      · rfl
    · cases hb : (checkCol g N i).2
      · exact absurd ((checkCol_comp_eq_false g N i).mp hb)
          (hcompfalse _ (hcolpos i hi1 hi2))
      · rfl
    · rfl
  have h2 : (checkPuzzle N g).2 = true := by
    rw [checkPuzzle_valid_eq_true_iff]
    intro q hq
    rcases mem_unitResults.mp hq with ⟨i, ⟨hi1, hi2⟩, (rfl | rfl)⟩ | ⟨-, r, c, hr, hc, rfl⟩
    · exact (checkRow_inv_eq_false g N i).mpr
        ((hrows i (Finset.mem_Icc.mpr ⟨hi1, hi2⟩)).filter _)
    · exact (checkCol_inv_eq_false g N i).mpr
        ((hcols i (Finset.mem_Icc.mpr ⟨hi1, hi2⟩)).filter _)
    · exact (checkSubgrid_inv_eq_false g N r c).mpr (hsubs r hr c hc)
  exact Prod.ext_iff.mpr ⟨h1, h2⟩

/-- C1 witness: a concrete fully filled, rule-satisfying 4x4 grid. -/
theorem c1_complete_valid_witness :
    ((4 : Nat) = 1 ∨ (4 : Nat) = 4 ∨ (4 : Nat) = 9 ∨ (4 : Nat) = 16)
    ∧ (∀ r ∈ Finset.Icc 1 4, ∀ c ∈ Finset.Icc 1 4, 0 < g14 r c ∧ g14 r c ≤ 4)
    ∧ (∀ r ∈ Finset.Icc 1 4, (rowVals g14 4 r).Nodup)
    ∧ (∀ c ∈ Finset.Icc 1 4, (colVals g14 4 c).Nodup)
    ∧ (∀ r ∈ blockStarts 4, ∀ c ∈ blockStarts 4, (subgridVals g14 4 r c).Nodup)
    ∧ checkPuzzle 4 g14 = (true, true) :=
  ⟨by decide, by decide, by decide, by decide, by decide,
    c1_complete_valid 4 g14 (by decide) (by decide) (by decide) (by decide)
      (by decide)⟩

/-- C2 counterexample: the claim "any grid with a zero cell yields
complete=false" fails.  In `cexC2grid` the zero sits at (3,3); row 3 scans
3, 3 and `break`s on the duplicate before reaching the zero, and column 3
scans 2, 2 and `break`s likewise, so no task ever sees the zero and
`checkPuzzle` reports complete=true. -/
theorem c2_counterexample :
    cexC2grid 3 3 = 0 ∧ (checkPuzzle 3 cexC2grid).1 = true := by
  exact ⟨by decide, by decide⟩

/-- C2 (amended): a grid with a zero cell is reported incomplete provided
the scan of the zero's row is not cut short, i.e. the row's positive values
are duplicate-free. -/
theorem c2_amended (N : Nat) (g : Grid) (r c : Nat)
    (hr1 : 1 ≤ r) (hrN : r ≤ N) (hc1 : 1 ≤ c) (hcN : c ≤ N)
    (hz : g r c = 0)
    (hnd : ((rowVals g N r).filter (fun v => 0 < v)).Nodup) :
    (checkPuzzle N g).1 = false := by
  have hlen : (rowVals g N r).length = N := by
    unfold rowVals range1
    simp
  have hidx : c - 1 < (rowVals g N r).length := by omega
  have hval : (rowVals g N r)[c - 1] = g r c := by
    unfold rowVals range1
    rw [List.getElem_map, List.getElem_map, List.getElem_range]
    congr 1
    omega
  have hdec : rowVals g N r
      = (rowVals g N r).take (c - 1)
        ++ (rowVals g N r)[c - 1] :: (rowVals g N r).drop (c - 1 + 1) := by
    rw [← List.drop_eq_getElem_cons hidx, List.take_append_drop]
  have hq2 : (checkRow g N r).2 = false := by
    rw [checkRow_comp_eq_false]
    refine ⟨(rowVals g N r).take (c - 1), (rowVals g N r)[c - 1],
      (rowVals g N r).drop (c - 1 + 1), hdec, ?_, ?_⟩
    · rw [hval, hz]
    · exact hnd.sublist (((rowVals g N r).take_sublist (c - 1)).filter _)
  rw [checkPuzzle_complete_eq_false_iff]
  exact ⟨checkRow g N r,
    mem_unitResults.mpr (Or.inl ⟨r, ⟨hr1, hrN⟩, Or.inl rfl⟩), hq2⟩

/-- C2 amended witness: a concrete 2x2 grid with a zero at (1,2) and a
duplicate-free first row. -/
theorem c2_amended_witness :
    ((1 : Nat) ≤ 1 ∧ (1 : Nat) ≤ 2 ∧ (1 : Nat) ≤ 2 ∧ (2 : Nat) ≤ 2)
    ∧ witC2grid 1 2 = 0
    ∧ ((rowVals witC2grid 2 1).filter (fun v => 0 < v)).Nodup
    ∧ (checkPuzzle 2 witC2grid).1 = false :=
  ⟨by decide, by decide, by decide,
    c2_amended 2 witC2grid 1 2 (by decide) (by decide) (by decide) (by decide)
      (by decide) (by decide)⟩

/-- C3 counterexample: the claim "valid=false iff some unit has a duplicate
nonzero value" fails.  The all-zero 4x4 grid has no nonzero value at all,
yet `checkPuzzle` reports valid=false, because the subgrid scan does not
skip zeros: the second 0 of a block is found in the seen set. -/
theorem c3_counterexample :
    ¬ specHasNonzeroDup 4 zeroGrid4 ∧ (checkPuzzle 4 zeroGrid4).2 = false := by
  exact ⟨by decide, by decide⟩

/-- C3 (amended): `checkPuzzle` sets valid=false iff some row or column
contains a duplicate nonzero value, or, when the subgrid flag applies, some
subgrid contains a duplicate value with empty cells counting as the value
0. -/
theorem c3_amended (N : Nat) (g : Grid) :
    (checkPuzzle N g).2 = false ↔
      ((∃ i, (1 ≤ i ∧ i ≤ N) ∧
          (¬ ((rowVals g N i).filter (fun v => 0 < v)).Nodup
            ∨ ¬ ((colVals g N i).filter (fun v => 0 < v)).Nodup))
        ∨ (sgFlag N = true ∧ ∃ r c, r ∈ blockStarts N ∧ c ∈ blockStarts N ∧
            ¬ (subgridVals g N r c).Nodup)) := by
  rw [checkPuzzle_valid_eq_false_iff_slot]
  constructor
  · rintro ⟨q, hq, hq1⟩
    rcases mem_unitResults.mp hq with ⟨i, hi, (rfl | rfl)⟩ | ⟨hf, r, c, hr, hc, rfl⟩
    · exact Or.inl ⟨i, hi, Or.inl ((checkRow_inv_eq_true g N i).mp hq1)⟩
    · exact Or.inl ⟨i, hi, Or.inr ((checkCol_inv_eq_true g N i).mp hq1)⟩
    · exact Or.inr ⟨hf, r, c, hr, hc, (checkSubgrid_inv_eq_true g N r c).mp hq1⟩
  · rintro (⟨i, hi, hnd | hnd⟩ | ⟨hf, r, c, hr, hc, hnd⟩)
    · exact ⟨checkRow g N i, mem_unitResults.mpr (Or.inl ⟨i, hi, Or.inl rfl⟩),
        (checkRow_inv_eq_true g N i).mpr hnd⟩
    · exact ⟨checkCol g N i, mem_unitResults.mpr (Or.inl ⟨i, hi, Or.inr rfl⟩),
        (checkCol_inv_eq_true g N i).mpr hnd⟩
    · exact ⟨checkSubgrid g N r c,
        mem_unitResults.mpr (Or.inr ⟨hf, r, c, hr, hc, rfl⟩),
        (checkSubgrid_inv_eq_true g N r c).mpr hnd⟩

/-- C4 counterexample: in `cexC4grid`, cell (2,2) is empty, its row and
column peers in the grid passed to `solveMissingNumber` use exactly N-1 = 3
distinct digits, and the candidate set computed from that grid is exactly
{1}; yet after the call the cell still holds 0, because the row-major pass
first fills (2,1) with 1, which removes (2,2)'s only candidate. -/
theorem c4_counterexample :
    cexC4grid 2 2 = 0
    ∧ specCands cexC4grid 4 2 2 = {1}
    ∧ (specPeerDigits cexC4grid 4 2 2).card = 4 - 1
    ∧ (solveMissingNumber cexC4grid 4) 2 2 = 0 := by
  exact ⟨by decide, by decide, by decide, by decide⟩

/-- C4 (amended): `solveMissingNumber` visits the cells in row-major order,
applying `solveCell` to the current grid; at each visited empty cell the
candidate set is {1..N} minus the nonzero values then present in the cell's
row and column (`specCands`); a unique candidate is written, otherwise the
cell is left at 0 (the step is total: no error state exists); and when the
peers hold exactly N-1 of the N digits at visit time, exactly one candidate
remains. -/
theorem c4_amended (g : Grid) (N row col : Nat) (h0 : g row col = 0) :
    (∀ (h : Grid) (M : Nat),
      solveMissingNumber h M
        = (rowMajorCells M).foldl (fun h2 p => solveCell h2 M p.1 p.2) h)
    ∧ ((candidates g N row col).toFinset = specCands g N row col)
    ∧ (∀ y : Nat, specCands g N row col = {y} →
        solveCell g N row col = updateGrid g row col (y : Int))
    ∧ ((specCands g N row col).card ≠ 1 → solveCell g N row col = g)
    ∧ ((specPeerDigits g N row col).card = N - 1 → 1 ≤ N →
        (specCands g N row col).card = 1) :=
  ⟨fun h M => solveMissingNumber_eq_foldl h M,
   candidates_toFinset g N row col,
   fun y hy => solveCell_of_card_one g N row col h0 y hy,
   fun h => solveCell_of_card_ne_one g N row col h0 h,
   fun h hN => specCands_card_of_peers g N row col hN h⟩

/-- C4 amended witness: concrete 2x2 instance at the empty cell (1,1). -/
theorem c4_amended_witness :
    witC4grid 1 1 = 0
    ∧ ((candidates witC4grid 2 1 1).toFinset = specCands witC4grid 2 1 1)
    ∧ (∀ y : Nat, specCands witC4grid 2 1 1 = {y} →
        solveCell witC4grid 2 1 1 = updateGrid witC4grid 1 1 (y : Int))
    ∧ ((specCands witC4grid 2 1 1).card ≠ 1 → solveCell witC4grid 2 1 1 = witC4grid)
    ∧ ((specPeerDigits witC4grid 2 1 1).card = 2 - 1 → 1 ≤ 2 →
        (specCands witC4grid 2 1 1).card = 1) := by
  have h := c4_amended witC4grid 2 1 1 (by decide)
  exact ⟨by decide, h.2.1, h.2.2.1, h.2.2.2.1, h.2.2.2.2⟩

/-- C5: the row/column unit scan's observable behavior: the duplicate flag
is set exactly when the unit's positive values repeat (a zero is never
treated as a duplicate), and the completeness flag is cleared exactly when
some value z ≤ 0 occurs before the scan's `break` point, i.e. with a
repetition-free positive prefix before it — so a zero after the first
duplicate is never seen. -/
theorem c5_rowcol_scan (g : Grid) (N i : Nat) :
    ((checkRow g N i).1 = true ↔
        ¬ ((rowVals g N i).filter (fun v => 0 < v)).Nodup)
    ∧ ((checkRow g N i).2 = false ↔
        ∃ t z rest, rowVals g N i = t ++ z :: rest ∧ z ≤ 0 ∧
          (t.filter (fun v => 0 < v)).Nodup)
    ∧ ((checkCol g N i).1 = true ↔
        ¬ ((colVals g N i).filter (fun v => 0 < v)).Nodup)
    ∧ ((checkCol g N i).2 = false ↔
        ∃ t z rest, colVals g N i = t ++ z :: rest ∧ z ≤ 0 ∧
          (t.filter (fun v => 0 < v)).Nodup) :=
  ⟨checkRow_inv_eq_true g N i, checkRow_comp_eq_false g N i,
   checkCol_inv_eq_true g N i, checkCol_comp_eq_false g N i⟩

/-- C6: subgrid checks never contribute to the complete flag: a subgrid
task's complete slot is identically true, the puzzle's complete flag is
computed from the row and column scans alone, and a subgrid scan does set
the invalid flag whenever the block repeats a nonzero value. -/
theorem c6_subgrid_frame (g : Grid) (N row col : Nat) :
    (checkSubgrid g N row col).2 = true
    ∧ (checkPuzzle N g).1
        = (range1 N).all (fun i => (checkRow g N i).2 && (checkCol g N i).2)
    ∧ (¬ ((subgridVals g N row col).filter (fun v => 0 < v)).Nodup →
        (checkSubgrid g N row col).1 = true) := by
  refine ⟨rfl, checkPuzzle_complete_rowcol N g, ?_⟩
  intro hnd
  apply (checkSubgrid_inv_eq_true g N row col).mpr
  intro hall
  exact hnd (hall.filter _)

/-- C6 witness: a 4x4 grid whose top-left block repeats the nonzero value 1. -/
theorem c6_subgrid_frame_witness :
    (checkSubgrid c6grid 4 1 1).2 = true
    ∧ (checkPuzzle 4 c6grid).1
        = (range1 4).all (fun i => (checkRow c6grid 4 i).2 && (checkCol c6grid 4 i).2)
    ∧ ¬ ((subgridVals c6grid 4 1 1).filter (fun v => 0 < v)).Nodup
    ∧ (checkSubgrid c6grid 4 1 1).1 = true :=
  ⟨(c6_subgrid_frame c6grid 4 1 1).1, (c6_subgrid_frame c6grid 4 1 1).2.1,
   by decide, (c6_subgrid_frame c6grid 4 1 1).2.2 (by decide)⟩

/-- C7: `checkPuzzle` is pure with respect to the grid: threading the grid
state through every unit-check task in creation order returns the grid
unchanged, and the flags agree with the pure `checkPuzzle`; no task and not
the orchestrator itself stores to any grid cell. -/
theorem c7_checkPuzzle_pure (N : Nat) (g : Grid) :
    (checkPuzzleSt N g).2 = g ∧ (checkPuzzleSt N g).1 = checkPuzzle N g := by
  have hrun := runTasks_of_frame (puzzleTasks N) (puzzleTasks_frame N) [] g
  have hr : runTasks (puzzleTasks N) g = (unitResults N g, g) := by
    unfold runTasks
    rw [hrun, List.nil_append, puzzleTasks_results]
  unfold checkPuzzleSt
  rw [hr]
  exact ⟨rfl, rfl⟩

/-- C8: running the filler on a grid with no empty cell leaves every cell
unchanged: every visited cell fails the `grid[row][col] == 0` test, so no
write ever happens. -/
theorem c8_filler_fixed_on_complete (g : Grid) (N : Nat)
    (hfull : ∀ r ∈ Finset.Icc 1 N, ∀ c ∈ Finset.Icc 1 N, g r c ≠ 0) :
    solveMissingNumber g N = g := by
  unfold solveMissingNumber
  apply foldl_grid_id
  intro row hrow
  apply foldl_grid_id
  intro col hcol
  apply solveCell_of_filled
  rcases mem_range1.mp hrow with ⟨h1, h2⟩
  rcases mem_range1.mp hcol with ⟨h3, h4⟩
  exact hfull row (Finset.mem_Icc.mpr ⟨h1, h2⟩) col (Finset.mem_Icc.mpr ⟨h3, h4⟩)

/-- C8 witness: a concrete fully filled 2x2 grid. -/
theorem c8_filler_fixed_on_complete_witness :
    (∀ r ∈ Finset.Icc 1 2, ∀ c ∈ Finset.Icc 1 2, c8grid r c ≠ 0)
    ∧ solveMissingNumber c8grid 2 = c8grid :=
  ⟨by decide, c8_filler_fixed_on_complete c8grid 2 (by decide)⟩

/-- C9 counterexample: the claim that `checkPuzzle` rejects a malformed
size fails: called with size 0 it performs no precondition check, builds
`totalThreads 0 = 0` tasks, and returns the normal result complete=true,
valid=true instead of failing. -/
theorem c9_counterexample :
    checkPuzzle 0 emptyGrid = (true, true) ∧ totalThreads 0 = 0 := by
  exact ⟨by decide, by decide⟩

/-- C9 (amended): `checkPuzzle` has no fail-fast path: at size 0 (the only
non-positive size expressible in the model; negative sizes make the C code
declare a negative-length array, which is undefined) it constructs an empty
task list and returns complete=true, valid=true for every grid. -/
theorem c9_amended (g : Grid) :
    checkPuzzle 0 g = (true, true) ∧ totalThreads 0 = 0 ∧ unitResults 0 g = [] :=
  ⟨rfl, rfl, rfl⟩

/-- C10: within one call, `solveMissingNumber` scans the cells in row-major
order threading the partially filled grid, so earlier writes are visible to
later candidate computations; concretely, on `chainGrid` the cell (1,2) has
two candidates in the original grid, yet a single call fills (1,1) with 1
and then (1,2) with 2 — a chain, not only cells determined by the original
contents. -/
theorem c10_row_major_chain :
    (∀ (g : Grid) (N : Nat),
      solveMissingNumber g N
        = (rowMajorCells N).foldl (fun h p => solveCell h N p.1 p.2) g)
    ∧ (specCands chainGrid 2 1 2).card = 2
    ∧ (solveMissingNumber chainGrid 2) 1 1 = 1
    ∧ (solveMissingNumber chainGrid 2) 1 2 = 2 := by
  exact ⟨fun g N => solveMissingNumber_eq_foldl g N, by decide, by decide, by decide⟩
